import Mathlib

/-!
Verification development for the ralphy parallel-execution and merge engine.

The definitions below are a shallow embedding of the TypeScript sources:

* `src/cli/src/cli/commands/telemetry.ts` (merge helpers: `MergeResult`,
  `mergeAgentBranch`, `PreMergeAnalysis`, `calculateConflictScore`,
  `sortByConflictLikelihood`)
* `src/cli/src/execution/parallel.ts` (`runParallel` result collection and
  `mergeCompletedBranches`)
* `src/cli/src/git/worktree.ts` (`createAgentWorktree` naming,
  `cleanupAgentWorktree`)
* `src/unnamed/part_001` (`GitMutex`, `commitSandboxChanges`)
* `src/unnamed/part_002` (`DEFAULT_SYMLINK_DIRS`, `getModifiedFiles`)

Effects (git subprocesses, the filesystem, the agent subprocess) are made
explicit: filesystem trees become an inductive `FSNode`, the git repository
becomes a `GitState` (current branch plus branch set), and each fallible
subprocess call takes its outcome from an explicit environment record, so
every function here is executable and every control-flow branch of the
source is represented.
-/

/-- Truthiness of a JavaScript `string | undefined` value: `undefined` and
the empty string are falsy, every other string is truthy. -/
def truthyStr : Option String → Bool
  | none => false
  | some s => s ≠ ""

/-! ### Pre-merge analysis and conflict-likelihood ordering
(`telemetry.ts`, `analyzePreMerge` / `calculateConflictScore` /
`sortByConflictLikelihood`) -/

/-- Result of pre-merge analysis of one branch (`PreMergeAnalysis`). -/
structure PreMergeAnalysis where
  branch : String
  filesChanged : List String
  fileCount : Nat
deriving Repr, DecidableEq

/-- Conflict score of one branch against all analyses: for every *other*
analysis, count its changed-file entries that also occur in this branch's
changed-file set (`calculateConflictScore`). -/
def calculateConflictScore (branchAnalysis : PreMergeAnalysis)
    (allAnalyses : List PreMergeAnalysis) : Nat :=
  allAnalyses.foldl
    (fun acc other =>
      if other.branch = branchAnalysis.branch then acc
      else acc + (other.filesChanged.filter
        (fun f => branchAnalysis.filesChanged.contains f)).length)
    0

/-- Comparator used by `sortByConflictLikelihood`: ascending score, ties by
ascending file count. `x` may stay before `y` exactly when the JS comparator
returns a non-positive number. -/
def conflictLe (x y : PreMergeAnalysis × Nat) : Bool :=
  if x.2 = y.2 then x.1.fileCount ≤ y.1.fileCount else x.2 < y.2

/-- Sort analyses by conflict likelihood, lowest first
(`sortByConflictLikelihood`): pair each analysis with its score against the
whole input, stable-sort by score then file count, drop the scores. -/
def sortByConflictLikelihood (analyses : List PreMergeAnalysis) :
    List PreMergeAnalysis :=
  let withScores := analyses.map
    (fun analysis => (analysis, calculateConflictScore analysis analyses))
  let sorted := withScores.mergeSort conflictLe
  sorted.map (fun ws => ws.1)

/-- Ordering the sorted output is claimed to satisfy: strictly smaller
conflict score, or equal score and no larger file count (scores taken
against the original input list). -/
def conflictOrdered (analyses : List PreMergeAnalysis)
    (a b : PreMergeAnalysis) : Prop :=
  calculateConflictScore a analyses < calculateConflictScore b analyses ∨
    (calculateConflictScore a analyses = calculateConflictScore b analyses ∧
      a.fileCount ≤ b.fileCount)

/-! ### Merge results (`telemetry.ts`, `mergeAgentBranch`) -/

/-- Result of a merge operation (`MergeResult`). -/
structure MergeResult where
  success : Bool
  hasConflicts : Bool
  conflictedFiles : Option (List String)
  potentialConflictFiles : Option (List String)
  error : Option String
deriving Repr, DecidableEq

/-- Outcomes of the fallible git calls made by one `mergeAgentBranch` run:
the overlap list computed by `getPotentialConflictFiles` (that helper
catches its own errors and returns `[]`), whether `git.checkout` and
`git.merge` succeed, whether `git.status` succeeds, the conflicted files it
reports, and the message of whichever error is thrown. -/
structure MergeEnv where
  potentialOverlap : List String
  checkoutOk : Bool
  mergeOk : Bool
  statusOk : Bool
  statusConflicted : List String
  errMsg : String
deriving Repr, DecidableEq

/-- Merge an agent branch into a target branch (`mergeAgentBranch`):
checkout the target, attempt the merge; on merge failure ask `git.status`
for conflicted files and report conflicts when there are any, otherwise
rethrow into the outer catch which reports a plain error. -/
def mergeAgentBranch (env : MergeEnv) : MergeResult :=
  let pot : Option (List String) :=
    if env.potentialOverlap.length > 0 then some env.potentialOverlap else none
  if !env.checkoutOk then
    ⟨false, false, none, pot, some env.errMsg⟩
  else if env.mergeOk then
    ⟨true, false, none, pot, none⟩
  else if !env.statusOk then
    ⟨false, false, none, pot, some env.errMsg⟩
  else if env.statusConflicted.length > 0 then
    ⟨false, true, some env.statusConflicted, pot, none⟩
  else
    ⟨false, false, none, pot, some env.errMsg⟩

/-- Well-formedness of a `MergeResult`: success excludes conflicts; a
conflicted result is unsuccessful and carries a non-empty conflicted-file
list; an unsuccessful non-conflicted result carries an error. -/
def mergeResultWellFormed (r : MergeResult) : Bool :=
  (!r.success || !r.hasConflicts) &&
  (!r.hasConflicts ||
    (!r.success &&
      (match r.conflictedFiles with
       | some fs => !fs.isEmpty
       | none => false))) &&
  (r.success || r.hasConflicts || r.error.isSome)

/-! ### Merge coordinator (`parallel.ts`, `mergeCompletedBranches`,
stages 3 and 4 plus the summary) -/

/-- Observable git-side effects of the coordinator and of worktree
cleanup. `abortMerge` is tagged with the branch being processed when the
abort happens. -/
inductive GitEvent where
  | mergeAttempt (branch : String)
  | abortMerge (processing : String)
  | deleteBranch (branch : String)
  | removeWorktree (dir : String)
deriving Repr, DecidableEq

/-- One iteration of the sequential merge loop for branch `b`: merged on
clean success; on reported conflicts (the `conflictedFiles` field present —
in JS any array, even empty, is truthy) try AI resolution, and when that
fails call `abortMerge` and record the branch as failed; any other failure
is recorded as failed without an abort. Returns whether the branch was
merged and the emitted events. -/
def mergeStepEvents (b : String) (mr : MergeResult) (resolved : Bool) :
    Bool × List GitEvent :=
  if mr.success then
    (true, [GitEvent.mergeAttempt b])
  else if mr.hasConflicts && mr.conflictedFiles.isSome then
    if resolved then (true, [GitEvent.mergeAttempt b])
    else (false, [GitEvent.mergeAttempt b, GitEvent.abortMerge b])
  else
    (false, [GitEvent.mergeAttempt b])

/-- Stage 3 of `mergeCompletedBranches`: sequentially merge each branch of
the (already conflict-sorted) list, accumulating merged branches, failed
branches and the event trace. The merge outcome of each branch comes from
`mergeAgentBranch` run against that branch's environment; `resolve` is the
outcome of `resolveConflictsWithAI`. -/
def mergeSequential (branches : List String) (env : String → MergeEnv)
    (resolve : String → Bool) : List String × List String × List GitEvent :=
  match branches with
  | [] => ([], [], [])
  | b :: rest =>
    let mr := mergeAgentBranch (env b)
    let step := mergeStepEvents b mr (resolve b)
    let tail := mergeSequential rest env resolve
    (if step.1 then b :: tail.1 else tail.1,
     if step.1 then tail.2.1 else b :: tail.2.1,
     step.2 ++ tail.2.2)

/-- Outcome of the merge phase: merged branches, failed branches, the event
trace (stage 3 followed by stage 4's parallel deletion of every merged
branch), and the failed-branch names surfaced in the final summary. -/
structure MergePhaseResult where
  merged : List String
  failed : List String
  events : List GitEvent
  summaryFailed : List String
deriving Repr, DecidableEq

/-- Stages 3 and 4 of `mergeCompletedBranches` plus its summary: run the
sequential merge loop, then delete exactly the merged branches
(`deleteLocalBranch` per merged branch), and surface the failed branches in
the summary. -/
def mergePhase (branches : List String) (env : String → MergeEnv)
    (resolve : String → Bool) : MergePhaseResult :=
  let seq := mergeSequential branches env resolve
  ⟨seq.1, seq.2.1,
    seq.2.2 ++ seq.1.map (fun b => GitEvent.deleteBranch b),
    seq.2.1⟩

/-! ### Worktree cleanup (`worktree.ts`, `cleanupAgentWorktree`) -/

/-- Environment of one `cleanupAgentWorktree` call: whether the worktree
directory still exists and the file list reported by `git status` inside
it. -/
structure WorktreeCleanupEnv where
  worktreeDirPresent : Bool
  statusFiles : List String
deriving Repr, DecidableEq

/-- Cleanup of an agent worktree (`cleanupAgentWorktree`): when the
directory exists and `git status` reports any files, leave it in place;
otherwise invoke `git worktree remove -f` (failures of that call are caught
and only logged). The branch is never deleted. Returns the `leftInPlace`
flag and the emitted events. -/
def cleanupAgentWorktree (dir : String) (env : WorktreeCleanupEnv) :
    Bool × List GitEvent :=
  if env.worktreeDirPresent && env.statusFiles.length > 0 then
    (true, [])
  else
    (false, [GitEvent.removeWorktree dir])

/-! ### Agent-number and name generation (`worktree.ts`
`createAgentWorktree`, `part_001` `commitSandboxChanges`, `parallel.ts`
`runAgentInSandbox` and the `globalAgentNum` counter) -/

/-- Branch name generated for an agent:
`ralphy/agent-<N>-<uniqueId>-<slug>`. `uniqueId` is the
timestamp-plus-random suffix and `slug` is `slugify(task.title)` (the
slugify source is outside the embedded core; the already-slugged string is
taken as a parameter). -/
def mkBranchName (agentNum : Nat) (uniqueId slug : String) : String :=
  "ralphy/agent-" ++ Nat.repr agentNum ++ "-" ++ uniqueId ++ "-" ++ slug

/-- Worktree directory name generated for an agent
(`agent-<N>-<uniqueId>`, joined under the worktree base). -/
def mkWorktreeDirName (agentNum : Nat) (uniqueId : String) : String :=
  "agent-" ++ Nat.repr agentNum ++ "-" ++ uniqueId

/-- Sandbox directory name generated for an agent
(`agent-<N>-<uniqueSuffix>`, joined under the sandbox base). -/
def mkSandboxDirName (agentNum : Nat) (uniqueSuffix : String) : String :=
  "agent-" ++ Nat.repr agentNum ++ "-" ++ uniqueSuffix

/-- Agent numbers assigned by `runParallel`'s dispatch loop: the global
counter starts at `start` (`0` at the top of a run) and is incremented
before each task of each batch, so a batch of size `k` entered with counter
value `s` receives numbers `s+1 … s+k`. -/
def assignAgentNumbers : List Nat → Nat → List (List Nat)
  | [], _ => []
  | k :: rest, start =>
    (List.range k).map (fun i => start + i + 1) ::
      assignAgentNumbers rest (start + k)

/-- Decimal digit characters of a natural number, most significant first;
reference rendering used to reason about `Nat.repr`. -/
def decChars (n : Nat) : List Char :=
  if h : n < 10 then [Nat.digitChar n]
  else decChars (n / 10) ++ [Nat.digitChar (n % 10)]
decreasing_by exact Nat.div_lt_self (by omega) (by omega)

/-- Numeric value of a digit character. -/
def digitVal (c : Char) : Nat := c.toNat - 48

/-- Value of a most-significant-first digit-character list. -/
def charsVal (l : List Char) : Nat :=
  l.foldl (fun acc c => acc * 10 + digitVal c) 0

/-! ### Sandbox commit critical section (`part_001`,
`commitSandboxChanges`) -/

/-- Git repository state visible to the sandbox commit path: the currently
checked-out branch and the set of local branches. -/
structure GitState where
  current : String
  branches : List String
deriving Repr, DecidableEq

/-- Branch set after `git checkout -B b base`: `b` is created if absent and
reset otherwise. -/
def insertBranch (b : String) (bs : List String) : List String :=
  if bs.contains b then bs else b :: bs

/-- Result of committing sandbox changes to a branch
(`SandboxCommitResult`). -/
structure SandboxCommitResult where
  success : Bool
  branchName : String
  filesCommitted : Nat
  error : Option String
deriving Repr, DecidableEq

/-- Outcomes of the fallible steps inside `commitSandboxChanges`: reading
the current branch, `git checkout -B`, the file-copy loop, `git add`,
`git commit`, the restoring checkout, and the two recovery steps of the
catch block (re-reading the branch list and checking out the base branch). -/
structure CommitEnv where
  readBranchOk : Bool
  checkoutNewOk : Bool
  copyOk : Bool
  addOk : Bool
  commitOk : Bool
  restoreOk : Bool
  recoveryReadOk : Bool
  recoveryCheckoutOk : Bool
  errMsg : String
deriving Repr, DecidableEq

/-- Best-effort recovery of the catch block of `commitSandboxChanges`:
re-read the branch list and, when not already on `baseBranch`, check it
out; all recovery errors are swallowed. -/
def commitRecover (st : GitState) (env : CommitEnv) (baseBranch : String) :
    GitState :=
  if env.recoveryReadOk then
    if st.current ≠ baseBranch then
      if env.recoveryCheckoutOk then { st with current := baseBranch } else st
    else st
  else st

/-- Commit changes from a sandbox to a new branch in the original repo
(`commitSandboxChanges`), run under the `GitMutex`: an empty modified-file
list short-circuits to success with an empty branch name; otherwise save
the current branch, `checkout -B` the generated branch from the base
branch, copy the modified files, stage exactly them, commit, and restore
the saved branch. The first failing step jumps to the catch block, which
attempts recovery to the base branch and reports failure still carrying the
generated branch name. -/
def commitSandboxChanges (st : GitState) (env : CommitEnv)
    (modifiedFiles : List String) (agentNum : Nat) (uniqueId slug : String)
    (baseBranch : String) : GitState × SandboxCommitResult :=
  if modifiedFiles.length = 0 then
    (st, ⟨true, "", 0, none⟩)
  else
    let branchName := mkBranchName agentNum uniqueId slug
    let fail := fun (stAt : GitState) =>
      (commitRecover stAt env baseBranch,
        (⟨false, branchName, 0, some env.errMsg⟩ : SandboxCommitResult))
    if !env.readBranchOk then fail st
    else
      let currentBranch := st.current
      if !env.checkoutNewOk then fail st
      else
        let st1 : GitState :=
          { current := branchName, branches := insertBranch branchName st.branches }
        if !env.copyOk then fail st1
        else if !env.addOk then fail st1
        else if !env.commitOk then fail st1
        else if !env.restoreOk then fail st1
        else
          ({ st1 with current := currentBranch },
            ⟨true, branchName, modifiedFiles.length, none⟩)

/-! ### GitMutex serialization (`part_001`, `GitMutex`)

The mutex chains every `acquire` onto the promise of the previous caller's
release: caller `n+1`'s critical section can begin only once its own
request has arrived and caller `n`'s section has completed. The induced
schedule is embedded as start/end times over abstract arrival times and
critical-section durations, indexed by arrival order. -/

/-- Start time of the `n`-th caller's critical section under the promise
chain of `GitMutex.acquire`. -/
def mutexStart (arrival dur : Nat → Nat) : Nat → Nat
  | 0 => arrival 0
  | n + 1 => max (arrival (n + 1)) (mutexStart arrival dur n + dur n)

/-- End time of the `n`-th caller's critical section. -/
def mutexEnd (arrival dur : Nat → Nat) (n : Nat) : Nat :=
  mutexStart arrival dur n + dur n

/-! ### Result collection in `runParallel` (`parallel.ts`, the loop over
settled agent results) -/

/-- Result of one agent execution (`AIResult`). -/
structure AIResult where
  success : Bool
  response : String
  inputTokens : Nat
  outputTokens : Nat
  error : Option String
deriving Repr, DecidableEq

/-- Per-task result handed back by `runAgentInWorktree` /
`runAgentInSandbox` (`ParallelAgentResult`); `result = none` is the
JavaScript `result: null` of the catch paths. -/
structure ParallelAgentResult where
  taskTitle : String
  agentNum : Nat
  worktreeDir : String
  branchName : String
  result : Option AIResult
  error : Option String
  usedSandbox : Bool
deriving Repr, DecidableEq

/-- Truthiness of `aiResult?.success`. -/
def aiSucceeded : Option AIResult → Bool
  | some r => r.success
  | none => false

/-- Decision taken for one settled agent result in `runParallel`'s
collection loop. `branchContrib` is the list of branches this task pushes
onto the accumulated `completedBranches` (empty or a singleton). -/
structure CollectDecision where
  branchName : String
  failureReason : Option String
  preserveSandbox : Bool
  branchContrib : List String
  completedDelta : Nat
  failedDelta : Nat
deriving Repr, DecidableEq

/-- Capture outcome for a sandbox task: either the exception thrown by
`getModifiedFiles` / `commitSandboxChanges`, or the detected modified files
together with the commit call's result (consulted only when the file list
is non-empty). -/
abbrev CaptureOutcome := Except String (List String × SandboxCommitResult)

/-- Body of `runParallel`'s per-result collection loop: for a sandbox task
whose agent succeeded, capture and commit the changes (a failed or throwing
commit sets the failure reason and preserves the sandbox); then classify
the task as failed or completed, and on completion push the branch name
onto the completed-branches accumulator when it is non-empty. -/
def collectOne (ar : ParallelAgentResult) (capture : CaptureOutcome) :
    CollectDecision :=
  let afterCapture : String × Option String × Bool :=
    if !truthyStr ar.error && aiSucceeded ar.result && ar.usedSandbox
        && ar.worktreeDir ≠ "" then
      match capture with
      | Except.error msg => (ar.branchName, some msg, true)
      | Except.ok (modifiedFiles, commitResult) =>
        if modifiedFiles.length > 0 then
          if commitResult.success then
            (commitResult.branchName, ar.error, false)
          else
            let e := match commitResult.error with
              | some s => s
              | none => ""
            (ar.branchName,
              some (if e = "" then "Failed to commit sandbox changes" else e),
              true)
        else (ar.branchName, ar.error, false)
    else (ar.branchName, ar.error, false)
  let branchName := afterCapture.1
  let failureReason := afterCapture.2.1
  let preserveSandbox := afterCapture.2.2
  if truthyStr failureReason then
    ⟨branchName, failureReason, preserveSandbox, [], 0, 1⟩
  else if aiSucceeded ar.result then
    ⟨branchName, failureReason, preserveSandbox,
      if branchName ≠ "" then [branchName] else [], 1, 0⟩
  else
    ⟨branchName, failureReason, preserveSandbox, [], 0, 1⟩

/-- Completed-branches accumulator over a run: the concatenation, in
settlement order, of every task's branch contribution. -/
def completedBranchesOf
    (results : List (ParallelAgentResult × CaptureOutcome)) : List String :=
  results.flatMap (fun p => (collectOne p.1 p.2).branchContrib)

/-! ### Sandbox change detection (`part_002`, `getModifiedFiles`) -/

/-- Filesystem tree: regular files carry `mtimeMs` and byte size, a
directory lists its entries in `readdir` order, symlinks carry their
target text. -/
inductive FSNode where
  | file (mtimeMs size : Nat)
  | dir (entries : List (String × FSNode))
  | symlink (target : String)

/-- Directories to symlink into sandboxes (`DEFAULT_SYMLINK_DIRS`). -/
def DEFAULT_SYMLINK_DIRS : List String :=
  ["node_modules", ".git", "vendor", ".venv", "venv", "__pycache__",
   ".pnpm-store", ".yarn", ".cache"]

/-- First entry of a directory listing with the given name. -/
def fsFindEntry (name : String) : List (String × FSNode) → Option FSNode
  | [] => none
  | (n, node) :: rest =>
    if n = name then some node else fsFindEntry name rest

/-- Node at a relative path (a list of components), descending through
directories only. -/
def fsLookup : FSNode → List String → Option FSNode
  | node, [] => some node
  | FSNode.dir entries, name :: rest =>
    match fsFindEntry name entries with
    | some child => fsLookup child rest
    | none => none
  | _, _ :: _ => none

/-- Comparison a sandbox regular file makes against the original tree
(`existsSync` then `statSync`): missing in the original means modified;
an original regular file is compared by mtime and size; an original node
that is not a regular file (a directory, or a symlink, whose resolved stat
is that of a different object) is treated as differing. -/
def fileDiffers (mtimeMs size : Nat) (origNode : Option FSNode) : Bool :=
  match origNode with
  | none => true
  | some (FSNode.file m s) => mtimeMs != m || size != s
  | some _ => true

/-- Test of `relPath.split(sep)[0]` membership in the symlink set. -/
def headIn (rel : List String) (dirs : List String) : Bool :=
  match rel with
  | [] => false
  | t :: _ => dirs.contains t

mutual
/-- The `scanDir` walk of `getModifiedFiles` at one sandbox node: skip
symlinks, skip any path whose top-level component is in the symlink set,
recurse into directories, and report a regular file when `fileDiffers`
against the original tree at the same relative path. -/
def scanNode (original : FSNode) (dirs : List String) (rel : List String) :
    FSNode → List (List String)
  | FSNode.symlink _ => []
  | FSNode.file m s =>
    if headIn rel dirs then []
    else if fileDiffers m s (fsLookup original rel) then [rel] else []
  | FSNode.dir entries =>
    if headIn rel dirs then []
    else scanEntries original dirs rel entries

/-- The walk over a directory's entries, in listing order. -/
def scanEntries (original : FSNode) (dirs : List String)
    (rel : List String) : List (String × FSNode) → List (List String)
  | [] => []
  | (name, child) :: rest =>
    scanNode original dirs (rel ++ [name]) child ++
      scanEntries original dirs rel rest
end

/-- List files modified in the sandbox relative to the original
(`getModifiedFiles`): walk the sandbox tree from its root (the root loop's
explicit symlink skip is subsumed by `scanNode`'s). A non-directory
sandbox root is degenerate (`readdirSync` would fail) and yields nothing. -/
def getModifiedFiles (sandbox original : FSNode) (symlinkDirs : List String) :
    List (List String) :=
  match sandbox with
  | FSNode.dir entries => scanEntries original symlinkDirs [] entries
  | _ => []

mutual
/-- Specification-side enumeration of every regular-file path of a tree
(with its stats), not descending through symlinks, in listing order. -/
def filePaths : FSNode → List (List String × Nat × Nat)
  | FSNode.file m s => [([], m, s)]
  | FSNode.symlink _ => []
  | FSNode.dir entries => filePathsEntries entries

/-- Regular-file paths of a directory listing. -/
def filePathsEntries : List (String × FSNode) → List (List String × Nat × Nat)
  | [] => []
  | (name, child) :: rest =>
    (filePaths child).map (fun x => (name :: x.1, x.2)) ++
      filePathsEntries rest
end

/-- Specification restatement of change detection: the regular files of the
sandbox tree whose top-level component is outside the symlink set and which
are missing from the original tree or differ from it in mtime or size. -/
def modifiedSpec (sandbox original : FSNode) (dirs : List String) :
    List (List String) :=
  ((filePaths sandbox).filter
      (fun x => !headIn x.1 dirs &&
        fileDiffers x.2.1 x.2.2 (fsLookup original x.1))).map
    (fun x => x.1)

/-- Filter condition of the specification-side characterization, with the
walk's accumulated path prefix made explicit. -/
def scanCond (original : FSNode) (dirs rel : List String)
    (x : List String × Nat × Nat) : Bool :=
  !headIn (rel ++ x.1) dirs &&
    fileDiffers x.2.1 x.2.2 (fsLookup original (rel ++ x.1))

/-- Specification-side form of the walk below a prefix `rel`: filter the
enumerated regular files and prepend the prefix. -/
def scanSpec (original : FSNode) (dirs rel : List String)
    (ps : List (List String × Nat × Nat)) : List (List String) :=
  (ps.filter (scanCond original dirs rel)).map (fun x => rel ++ x.1)

/-! ## Theorems -/

theorem insertBranch_subset (b : String) (bs : List String) :
    bs ⊆ insertBranch b bs := by
  unfold insertBranch
  split
  · exact fun a ha => ha
  · exact fun a ha => List.mem_cons_of_mem _ ha

theorem mem_insertBranch (b : String) (bs : List String) :
    b ∈ insertBranch b bs := by
  unfold insertBranch
  split
  · exact List.mem_of_elem_eq_true (by assumption)
  · exact List.mem_cons_self _ _

theorem commitRecover_branches (st : GitState) (env : CommitEnv)
    (base : String) : (commitRecover st env base).branches = st.branches := by
  unfold commitRecover
  split_ifs <;> rfl

theorem commitRecover_current (st : GitState) (env : CommitEnv)
    (base : String) (h1 : env.recoveryReadOk = true)
    (h2 : env.recoveryCheckoutOk = true) :
    (commitRecover st env base).current = base := by
  unfold commitRecover
  rw [if_pos h1]
  by_cases hc : st.current = base
  · rw [if_neg (by simp [hc])]
    exact hc
  · rw [if_pos (by simp [hc]), if_pos h2]

/-- C10: every `MergeResult` returned by `mergeAgentBranch` is well-formed:
success excludes conflicts, a conflicted result is unsuccessful with a
non-empty conflicted-file list, and an unsuccessful non-conflicted result
carries an error. -/
theorem C10_mergeAgentBranch_wellFormed (env : MergeEnv) :
    mergeResultWellFormed (mergeAgentBranch env) = true := by
  unfold mergeAgentBranch mergeResultWellFormed
  split_ifs with h1 h2 h3 h4 <;>
    simp_all [List.isEmpty_iff, List.length_pos]

theorem mutexEnd_le_mutexStart_succ (arrival dur : Nat → Nat) (n : Nat) :
    mutexEnd arrival dur n ≤ mutexStart arrival dur (n + 1) :=
  le_max_right _ _

/-- C9: the `GitMutex` promise chain serializes all critical sections and
grants them in arrival order: an earlier caller's critical section ends
before a later caller's begins (so no two commit critical sections
interleave), and start times respect FIFO arrival order. -/
theorem C9_gitMutex_fifo_serialization (arrival dur : Nat → Nat)
    (i j : Nat) (hij : i < j) :
    mutexEnd arrival dur i ≤ mutexStart arrival dur j ∧
      mutexStart arrival dur i ≤ mutexStart arrival dur j := by
  induction j with
  | zero => omega
  | succ k ih =>
    have hstep := mutexEnd_le_mutexStart_succ arrival dur k
    rcases Nat.lt_succ_iff_lt_or_eq.mp hij with h | h
    · have hk := ih h
      refine ⟨le_trans hk.1 ?_, le_trans hk.2 ?_⟩
      · exact le_trans (Nat.le_add_right _ (dur k)) hstep
      · exact le_trans (Nat.le_add_right _ (dur k)) hstep
    · subst h
      exact ⟨hstep, le_trans (Nat.le_add_right _ (dur i)) hstep⟩

theorem C9_witness :
    mutexEnd (fun _ => 0) (fun _ => 1) 0 ≤ mutexStart (fun _ => 0) (fun _ => 1) 1 ∧
      mutexStart (fun _ => 0) (fun _ => 1) 0 ≤ mutexStart (fun _ => 0) (fun _ => 1) 1 :=
  C9_gitMutex_fifo_serialization (fun _ => 0) (fun _ => 1) 0 1 (by decide)

/-- C7: `cleanupAgentWorktree` leaves the worktree in place (and performs no
git action) whenever the directory exists and holds uncommitted
modifications; otherwise it removes the worktree registration; and in no
case does it delete the worktree's branch. -/
theorem C7_cleanupAgentWorktree_preserves (dir : String)
    (env : WorktreeCleanupEnv) :
    (env.worktreeDirPresent = true → env.statusFiles ≠ [] →
      (cleanupAgentWorktree dir env).1 = true ∧
        (cleanupAgentWorktree dir env).2 = []) ∧
    (env.worktreeDirPresent = false ∨ env.statusFiles = [] →
      (cleanupAgentWorktree dir env).1 = false ∧
        (cleanupAgentWorktree dir env).2 = [GitEvent.removeWorktree dir]) ∧
    (∀ b, GitEvent.deleteBranch b ∉ (cleanupAgentWorktree dir env).2) := by
  obtain ⟨present, files⟩ := env
  cases present <;> cases files <;>
    simp [cleanupAgentWorktree]

theorem C7_witness :
    (cleanupAgentWorktree "wt" ⟨true, ["f.ts"]⟩).1 = true ∧
      (cleanupAgentWorktree "wt" ⟨true, ["f.ts"]⟩).2 = [] :=
  (C7_cleanupAgentWorktree_preserves "wt" ⟨true, ["f.ts"]⟩).1 rfl (by decide)

/-- C5: `commitSandboxChanges` on a non-empty modified-file list always
reports the generated branch name; on success the repository is back on the
branch that was current before the call; the branch set only grows (the
partially created branch is never deleted) and contains the generated
branch once `checkout -B` has run; and on failure, when the best-effort
recovery steps succeed, the repository is left on the base branch. -/
theorem C5_commitSandboxChanges_recovery (st : GitState) (env : CommitEnv)
    (files : List String) (agentNum : Nat) (uniqueId slug baseBranch : String)
    (hfiles : files ≠ []) :
    ((commitSandboxChanges st env files agentNum uniqueId slug
        baseBranch).2.branchName = mkBranchName agentNum uniqueId slug) ∧
    ((commitSandboxChanges st env files agentNum uniqueId slug
        baseBranch).2.success = true →
      (commitSandboxChanges st env files agentNum uniqueId slug
        baseBranch).1.current = st.current) ∧
    (st.branches ⊆ (commitSandboxChanges st env files agentNum uniqueId slug
        baseBranch).1.branches) ∧
    (env.readBranchOk = true → env.checkoutNewOk = true →
      mkBranchName agentNum uniqueId slug ∈
        (commitSandboxChanges st env files agentNum uniqueId slug
          baseBranch).1.branches) ∧
    ((commitSandboxChanges st env files agentNum uniqueId slug
        baseBranch).2.success = false → env.recoveryReadOk = true →
      env.recoveryCheckoutOk = true →
      (commitSandboxChanges st env files agentNum uniqueId slug
        baseBranch).1.current = baseBranch) := by
  have hlen : ¬ files.length = 0 := by
    simpa [List.length_eq_zero] using hfiles
  obtain ⟨rb, cn, cp, ad, cm, rs, rr, rc, msg⟩ := env
  unfold commitSandboxChanges
  rw [if_neg hlen]
  cases rb <;> cases cn <;> cases cp <;> cases ad <;> cases cm <;> cases rs <;>
    simp_all [commitRecover_branches, commitRecover_current,
      insertBranch_subset, mem_insertBranch, List.Subset.refl]

theorem C5_witness :
    ((commitSandboxChanges ⟨"main", ["main"]⟩
        ⟨true, true, true, true, true, true, true, true, "boom"⟩
        ["src/a.ts"] 1 "17-ab" "task" "main").2.branchName =
      mkBranchName 1 "17-ab" "task") ∧
    ((commitSandboxChanges ⟨"main", ["main"]⟩
        ⟨true, true, true, true, true, true, true, true, "boom"⟩
        ["src/a.ts"] 1 "17-ab" "task" "main").2.success = true →
      (commitSandboxChanges ⟨"main", ["main"]⟩
        ⟨true, true, true, true, true, true, true, true, "boom"⟩
        ["src/a.ts"] 1 "17-ab" "task" "main").1.current = "main") ∧
    ((⟨"main", ["main"]⟩ : GitState).branches ⊆
      (commitSandboxChanges ⟨"main", ["main"]⟩
        ⟨true, true, true, true, true, true, true, true, "boom"⟩
        ["src/a.ts"] 1 "17-ab" "task" "main").1.branches) ∧
    (true = true → true = true →
      mkBranchName 1 "17-ab" "task" ∈
        (commitSandboxChanges ⟨"main", ["main"]⟩
          ⟨true, true, true, true, true, true, true, true, "boom"⟩
          ["src/a.ts"] 1 "17-ab" "task" "main").1.branches) ∧
    ((commitSandboxChanges ⟨"main", ["main"]⟩
        ⟨true, true, true, true, true, true, true, true, "boom"⟩
        ["src/a.ts"] 1 "17-ab" "task" "main").2.success = false →
      true = true → true = true →
      (commitSandboxChanges ⟨"main", ["main"]⟩
        ⟨true, true, true, true, true, true, true, true, "boom"⟩
        ["src/a.ts"] 1 "17-ab" "task" "main").1.current = "main") :=
  C5_commitSandboxChanges_recovery ⟨"main", ["main"]⟩
    ⟨true, true, true, true, true, true, true, true, "boom"⟩
    ["src/a.ts"] 1 "17-ab" "task" "main" (by decide)

theorem mergeAgentBranch_conflict_shape (env : MergeEnv)
    (h : (mergeAgentBranch env).hasConflicts = true) :
    (mergeAgentBranch env).success = false ∧
      (mergeAgentBranch env).conflictedFiles.isSome = true := by
  unfold mergeAgentBranch at h ⊢
  split_ifs at h ⊢ <;> simp_all

theorem mergeStepEvents_no_delete (b : String) (mr : MergeResult)
    (resolved : Bool) (br : String) :
    GitEvent.deleteBranch br ∉ (mergeStepEvents b mr resolved).2 := by
  unfold mergeStepEvents
  split_ifs <;> simp

theorem mergeSequential_no_delete (branches : List String)
    (env : String → MergeEnv) (resolve : String → Bool) (br : String) :
    GitEvent.deleteBranch br ∉ (mergeSequential branches env resolve).2.2 := by
  induction branches with
  | nil => simp [mergeSequential]
  | cons b rest ih =>
    simp only [mergeSequential, List.mem_append]
    intro hmem
    rcases hmem with hmem | hmem
    · exact mergeStepEvents_no_delete b _ _ br hmem
    · exact ih hmem

theorem mergeSequential_partition (branches : List String)
    (env : String → MergeEnv) (resolve : String → Bool) :
    ((mergeSequential branches env resolve).1 ++
      (mergeSequential branches env resolve).2.1).Perm branches := by
  induction branches with
  | nil => simp [mergeSequential]
  | cons b rest ih =>
    simp only [mergeSequential]
    cases hstep : (mergeStepEvents b (mergeAgentBranch (env b)) (resolve b)).1 <;>
      simp only [hstep, if_true, if_false, Bool.false_eq_true]
    · exact List.Perm.trans List.perm_middle (List.Perm.cons b ih)
    · simpa using List.Perm.cons b ih

theorem mergeStepEvents_conflict_failure (b : String) (env : MergeEnv)
    (hconf : (mergeAgentBranch env).hasConflicts = true) :
    mergeStepEvents b (mergeAgentBranch env) false =
      (false, [GitEvent.mergeAttempt b, GitEvent.abortMerge b]) := by
  obtain ⟨hsucc, hsome⟩ := mergeAgentBranch_conflict_shape env hconf
  unfold mergeStepEvents
  rw [hsucc, hconf, hsome]
  simp

theorem mergeSequential_conflict_aborts (branches : List String)
    (env : String → MergeEnv) (resolve : String → Bool) (b : String)
    (hb : b ∈ branches)
    (hconf : (mergeAgentBranch (env b)).hasConflicts = true)
    (hres : resolve b = false) :
    GitEvent.abortMerge b ∈ (mergeSequential branches env resolve).2.2 ∧
      b ∈ (mergeSequential branches env resolve).2.1 := by
  induction branches with
  | nil => cases hb
  | cons b₁ rest ih =>
    rcases List.mem_cons.mp hb with hbeq | hbrest
    · subst hbeq
      have hstep := mergeStepEvents_conflict_failure b (env b) hconf
      simp [mergeSequential, hres, hstep]
    · have htail := ih hbrest
      simp only [mergeSequential, List.mem_append]
      refine ⟨Or.inr htail.1, ?_⟩
      cases hstep : (mergeStepEvents b₁ (mergeAgentBranch (env b₁)) (resolve b₁)).1 <;>
        simp only [hstep, if_true, if_false, Bool.false_eq_true]
      · exact List.mem_cons_of_mem _ htail.2
      · exact htail.2

/-- C4: in the merge phase, a branch whose merge reports conflicts and whose
AI conflict resolution fails triggers an explicit `abortMerge`, is recorded
as failed, and does not stop the pass: every branch of the list still ends
up classified as merged or failed. -/
theorem C4_conflict_resolution_failure_aborts (branches : List String)
    (env : String → MergeEnv) (resolve : String → Bool) (b : String)
    (hb : b ∈ branches)
    (hconf : (mergeAgentBranch (env b)).hasConflicts = true)
    (hres : resolve b = false) :
    GitEvent.abortMerge b ∈ (mergePhase branches env resolve).events ∧
      b ∈ (mergePhase branches env resolve).failed ∧
      ∀ b₂ ∈ branches, b₂ ∈ (mergePhase branches env resolve).merged ∨
        b₂ ∈ (mergePhase branches env resolve).failed := by
  have hseq := mergeSequential_conflict_aborts branches env resolve b hb hconf hres
  have hperm := mergeSequential_partition branches env resolve
  refine ⟨?_, hseq.2, ?_⟩
  · exact List.mem_append.mpr (Or.inl hseq.1)
  · intro b₂ hb₂
    have : b₂ ∈ (mergeSequential branches env resolve).1 ++
        (mergeSequential branches env resolve).2.1 :=
      hperm.symm.subset hb₂
    exact List.mem_append.mp this

theorem C4_witness :
    GitEvent.abortMerge "b1" ∈
      (mergePhase ["b1", "b2"]
        (fun _ => ⟨[], true, false, true, ["f.ts"], "merge failed"⟩)
        (fun _ => false)).events ∧
    "b1" ∈ (mergePhase ["b1", "b2"]
        (fun _ => ⟨[], true, false, true, ["f.ts"], "merge failed"⟩)
        (fun _ => false)).failed ∧
    ∀ b₂ ∈ ["b1", "b2"],
      b₂ ∈ (mergePhase ["b1", "b2"]
        (fun _ => ⟨[], true, false, true, ["f.ts"], "merge failed"⟩)
        (fun _ => false)).merged ∨
      b₂ ∈ (mergePhase ["b1", "b2"]
        (fun _ => ⟨[], true, false, true, ["f.ts"], "merge failed"⟩)
        (fun _ => false)).failed :=
  C4_conflict_resolution_failure_aborts ["b1", "b2"]
    (fun _ => ⟨[], true, false, true, ["f.ts"], "merge failed"⟩)
    (fun _ => false) "b1" (by decide) (by decide) rfl

/-- C6: after the deletion stage, `deleteLocalBranch` has been invoked for
exactly the merged branches (never for a failed branch, given the branch
list has no duplicates), and the failed branches are the ones surfaced in
the final summary. -/
theorem C6_only_merged_branches_deleted (branches : List String)
    (env : String → MergeEnv) (resolve : String → Bool) :
    (∀ b, GitEvent.deleteBranch b ∈ (mergePhase branches env resolve).events ↔
      b ∈ (mergePhase branches env resolve).merged) ∧
    (branches.Nodup → ∀ b ∈ (mergePhase branches env resolve).failed,
      GitEvent.deleteBranch b ∉ (mergePhase branches env resolve).events) ∧
    (mergePhase branches env resolve).summaryFailed =
      (mergePhase branches env resolve).failed := by
  have hdel : ∀ b, GitEvent.deleteBranch b ∈
      (mergePhase branches env resolve).events ↔
      b ∈ (mergePhase branches env resolve).merged := by
    intro b
    simp only [mergePhase, List.mem_append]
    constructor
    · intro h
      rcases h with h | h
      · exact absurd h (mergeSequential_no_delete branches env resolve b)
      · rcases List.mem_map.mp h with ⟨a, ha, heq⟩
        cases heq
        exact ha
    · intro h
      exact Or.inr (List.mem_map.mpr ⟨b, h, rfl⟩)
  refine ⟨hdel, ?_, rfl⟩
  intro hnodup b hfail hmem
  have hmerged := (hdel b).mp hmem
  have hperm := mergeSequential_partition branches env resolve
  have hnd : ((mergeSequential branches env resolve).1 ++
      (mergeSequential branches env resolve).2.1).Nodup :=
    hperm.symm.nodup hnodup
  have hdisj := (List.nodup_append.mp hnd).2.2
  exact hdisj hmerged hfail

theorem C6_witness :
    GitEvent.deleteBranch "b2" ∉
      (mergePhase ["b1", "b2"]
        (fun b => if b = "b1" then ⟨[], true, true, true, [], "e"⟩
          else ⟨[], true, false, true, [], "merge failed"⟩)
        (fun _ => false)).events :=
  (C6_only_merged_branches_deleted ["b1", "b2"]
    (fun b => if b = "b1" then ⟨[], true, true, true, [], "e"⟩
      else ⟨[], true, false, true, [], "merge failed"⟩)
    (fun _ => false)).2.1 (by decide) "b2" (by decide)

theorem conflictLe_trans (a b c : PreMergeAnalysis × Nat)
    (hab : conflictLe a b = true) (hbc : conflictLe b c = true) :
    conflictLe a c = true := by
  unfold conflictLe at *
  split_ifs at * <;> simp_all <;> omega

theorem conflictLe_total (a b : PreMergeAnalysis × Nat) :
    (conflictLe a b || conflictLe b a) = true := by
  unfold conflictLe
  split_ifs <;> simp_all <;> omega

theorem sortByConflictLikelihood_scores (analyses : List PreMergeAnalysis)
    (x : PreMergeAnalysis × Nat)
    (hx : x ∈ (analyses.map (fun analysis =>
      (analysis, calculateConflictScore analysis analyses))).mergeSort conflictLe) :
    x.2 = calculateConflictScore x.1 analyses := by
  have hx' := (List.mergeSort_perm _ conflictLe).subset hx
  rcases List.mem_map.mp hx' with ⟨a, _, rfl⟩
  rfl

/-- C2: `sortByConflictLikelihood` returns a permutation of its input that
is ordered by ascending conflict score with ties broken by ascending file
count; in particular, for three branches whose summed overlap counts
against the other two are 0, 5 and 2, the 0-overlap branch is placed
first. -/
theorem C2_sortByConflictLikelihood_orders (analyses : List PreMergeAnalysis) :
    (sortByConflictLikelihood analyses).Perm analyses ∧
    List.Pairwise (conflictOrdered analyses)
      (sortByConflictLikelihood analyses) ∧
    calculateConflictScore ⟨"A", ["z"], 1⟩
      [⟨"A", ["z"], 1⟩, ⟨"B", ["f", "g", "h"], 3⟩,
        ⟨"C", ["f", "f", "f", "f", "g"], 5⟩] = 0 ∧
    calculateConflictScore ⟨"B", ["f", "g", "h"], 3⟩
      [⟨"A", ["z"], 1⟩, ⟨"B", ["f", "g", "h"], 3⟩,
        ⟨"C", ["f", "f", "f", "f", "g"], 5⟩] = 5 ∧
    calculateConflictScore ⟨"C", ["f", "f", "f", "f", "g"], 5⟩
      [⟨"A", ["z"], 1⟩, ⟨"B", ["f", "g", "h"], 3⟩,
        ⟨"C", ["f", "f", "f", "f", "g"], 5⟩] = 2 ∧
    sortByConflictLikelihood
      [⟨"A", ["z"], 1⟩, ⟨"B", ["f", "g", "h"], 3⟩,
        ⟨"C", ["f", "f", "f", "f", "g"], 5⟩] =
      [⟨"A", ["z"], 1⟩, ⟨"C", ["f", "f", "f", "f", "g"], 5⟩,
        ⟨"B", ["f", "g", "h"], 3⟩] := by
  refine ⟨?_, ?_, by rfl, by rfl, by rfl, ?_⟩
  · simp only [sortByConflictLikelihood]
    have hperm := (List.mergeSort_perm (analyses.map (fun analysis =>
      (analysis, calculateConflictScore analysis analyses))) conflictLe).map
      (fun ws : PreMergeAnalysis × Nat => ws.1)
    have hmap : (analyses.map (fun analysis =>
        (analysis, calculateConflictScore analysis analyses))).map
        (fun ws : PreMergeAnalysis × Nat => ws.1) = analyses := by
      rw [List.map_map]
      exact List.map_id analyses
    rw [hmap] at hperm
    exact hperm
  · simp only [sortByConflictLikelihood]
    refine List.pairwise_map.mpr ?_
    have hpair := List.sorted_mergeSort conflictLe_trans conflictLe_total
      (analyses.map (fun analysis =>
        (analysis, calculateConflictScore analysis analyses)))
    refine hpair.imp_of_mem ?_
    intro x y hx hy hle
    have hx2 := sortByConflictLikelihood_scores analyses x hx
    have hy2 := sortByConflictLikelihood_scores analyses y hy
    unfold conflictLe at hle
    unfold conflictOrdered
    rw [← hx2, ← hy2]
    split_ifs at hle with hsc
    · exact Or.inr ⟨hsc, by simpa using hle⟩
    · exact Or.inl (by simpa using (Nat.lt_of_lt_of_le (by simpa using hle) (Nat.le_refl _)))
  · simp [sortByConflictLikelihood, List.mergeSort, calculateConflictScore,
      conflictLe]

theorem collectOne_failed_no_branch (ar : ParallelAgentResult)
    (cap : CaptureOutcome) (h : (collectOne ar cap).failedDelta = 1) :
    (collectOne ar cap).branchContrib = [] := by
  simp only [collectOne] at h ⊢
  split_ifs at h ⊢ <;> simp_all

theorem collectOne_at_most_one (ar : ParallelAgentResult)
    (cap : CaptureOutcome) : (collectOne ar cap).branchContrib.length ≤ 1 := by
  simp only [collectOne]
  split_ifs <;> simp

theorem collectOne_worktree_success (ar : ParallelAgentResult)
    (cap : CaptureOutcome) (hs : truthyStr ar.error = false)
    (ha : aiSucceeded ar.result = true) (hw : ar.usedSandbox = false)
    (hb : ar.branchName ≠ "") :
    (collectOne ar cap).branchContrib = [ar.branchName] := by
  simp [collectOne, hs, ha, hw, hb]

theorem collectOne_sandbox_commit_success (ar : ParallelAgentResult)
    (fs : List String) (cr : SandboxCommitResult)
    (hs : truthyStr ar.error = false) (ha : aiSucceeded ar.result = true)
    (hsb : ar.usedSandbox = true) (hw : ar.worktreeDir ≠ "")
    (hfs : fs ≠ []) (hcs : cr.success = true) (hbn : cr.branchName ≠ "") :
    (collectOne ar (Except.ok (fs, cr))).branchContrib = [cr.branchName] := by
  have hpos : fs.length > 0 := List.length_pos.mpr hfs
  simp [collectOne, hs, ha, hsb, hw, hpos, hcs, hbn]

theorem collectOne_sandbox_no_files (ar : ParallelAgentResult)
    (cr : SandboxCommitResult) (hs : truthyStr ar.error = false)
    (ha : aiSucceeded ar.result = true) (hsb : ar.usedSandbox = true)
    (hb : ar.branchName = "") :
    (collectOne ar (Except.ok ([], cr))).branchContrib = [] := by
  simp [collectOne, hs, ha, hsb, hb]

/-- C1 counterexample: a sandbox task whose agent run succeeds but whose
sandbox has no modified files is counted as completed yet contributes no
branch to the completed-branches accumulator, so an agent-successful task
does not always contribute exactly one branch. -/
theorem C1_counterexample :
    aiSucceeded (ParallelAgentResult.result
      ⟨"task", 1, "/sb", "", some ⟨true, "done", 10, 20, none⟩, none, true⟩) =
        true ∧
    truthyStr (ParallelAgentResult.error
      ⟨"task", 1, "/sb", "", some ⟨true, "done", 10, 20, none⟩, none, true⟩) =
        false ∧
    (collectOne
      ⟨"task", 1, "/sb", "", some ⟨true, "done", 10, 20, none⟩, none, true⟩
      (Except.ok ([], ⟨true, "", 0, none⟩))).completedDelta = 1 ∧
    (collectOne
      ⟨"task", 1, "/sb", "", some ⟨true, "done", 10, 20, none⟩, none, true⟩
      (Except.ok ([], ⟨true, "", 0, none⟩))).branchContrib = [] := by
  refine ⟨rfl, rfl, ?_, ?_⟩ <;> decide

/-- C1 (amended): the completed-branches set is the concatenation of the
per-task contributions; a task classified as failed contributes no branch;
every task contributes at most one branch; a successful worktree task
contributes exactly its worktree branch; a successful sandbox task with a
non-empty modified-file list and a successful commit contributes exactly
the committed branch; and a successful sandbox task with no modified files
contributes none. -/
theorem C1_branch_contribution (results : List (ParallelAgentResult × CaptureOutcome)) :
    completedBranchesOf results =
      results.flatMap (fun p => (collectOne p.1 p.2).branchContrib) ∧
    ∀ p ∈ results,
      ((collectOne p.1 p.2).failedDelta = 1 →
        (collectOne p.1 p.2).branchContrib = []) ∧
      (collectOne p.1 p.2).branchContrib.length ≤ 1 ∧
      (truthyStr p.1.error = false → aiSucceeded p.1.result = true →
        p.1.usedSandbox = false → p.1.branchName ≠ "" →
        (collectOne p.1 p.2).branchContrib = [p.1.branchName]) ∧
      (∀ fs cr, truthyStr p.1.error = false → aiSucceeded p.1.result = true →
        p.1.usedSandbox = true → p.1.worktreeDir ≠ "" →
        p.2 = Except.ok (fs, cr) → fs ≠ [] → cr.success = true →
        cr.branchName ≠ "" →
        (collectOne p.1 p.2).branchContrib = [cr.branchName]) ∧
      (∀ cr, truthyStr p.1.error = false → aiSucceeded p.1.result = true →
        p.1.usedSandbox = true → p.1.branchName = "" →
        p.2 = Except.ok ([], cr) →
        (collectOne p.1 p.2).branchContrib = []) := by
  refine ⟨rfl, ?_⟩
  intro p _
  refine ⟨collectOne_failed_no_branch p.1 p.2, collectOne_at_most_one p.1 p.2,
    ?_, ?_, ?_⟩
  · intro hs ha hw hb
    exact collectOne_worktree_success p.1 p.2 hs ha hw hb
  · intro fs cr hs ha hsb hw hcap hfs hcs hbn
    rw [hcap]
    exact collectOne_sandbox_commit_success p.1 fs cr hs ha hsb hw hfs hcs hbn
  · intro cr hs ha hsb hb hcap
    rw [hcap]
    exact collectOne_sandbox_no_files p.1 cr hs ha hsb hb

theorem C1_witness :
    (collectOne
      ⟨"t", 1, "/wt", "ralphy/agent-1-u-t", some ⟨true, "ok", 1, 2, none⟩,
        none, false⟩
      (Except.error "unused")).branchContrib = ["ralphy/agent-1-u-t"] :=
  ((C1_branch_contribution
    [(⟨"t", 1, "/wt", "ralphy/agent-1-u-t", some ⟨true, "ok", 1, 2, none⟩,
        none, false⟩, Except.error "unused")]).2
    (⟨"t", 1, "/wt", "ralphy/agent-1-u-t", some ⟨true, "ok", 1, 2, none⟩,
        none, false⟩, Except.error "unused")
    (List.mem_singleton.mpr rfl)).2.2.1 rfl rfl rfl (by decide)

theorem digitVal_digitChar (m : Nat) (h : m < 10) :
    digitVal (Nat.digitChar m) = m := by
  interval_cases m <;> rfl

theorem digitChar_ne_dash (m : Nat) (h : m < 10) :
    Nat.digitChar m ≠ Char.ofNat 45 := by
  interval_cases m <;> decide

theorem toDigitsCore_eq_decChars :
    ∀ (fuel n : Nat) (ds : List Char), n < fuel →
      Nat.toDigitsCore 10 fuel n ds = decChars n ++ ds := by
  intro fuel
  induction fuel with
  | zero => intro n ds h; omega
  | succ f ih =>
    intro n ds h
    by_cases h10 : n / 10 = 0
    · have hn : n < 10 := by omega
      have hmod : n % 10 = n := Nat.mod_eq_of_lt hn
      rw [decChars]
      simp [Nat.toDigitsCore, h10, hn, hmod]
    · have hn : ¬ n < 10 := by omega
      have hlt : n / 10 < f := by omega
      rw [decChars]
      simp only [Nat.toDigitsCore, h10, if_false, hn, dif_neg, not_false_iff]
      rw [ih (n / 10) (Nat.digitChar (n % 10) :: ds) hlt]
      simp

theorem repr_data (n : Nat) : (Nat.repr n).data = decChars n := by
  show (List.asString (Nat.toDigitsCore 10 (n + 1) n [])).data = decChars n
  rw [toDigitsCore_eq_decChars (n + 1) n [] (Nat.lt_succ_self n)]
  simp [List.asString]

theorem charsVal_append_digit (xs : List Char) (c : Char) :
    charsVal (xs ++ [c]) = charsVal xs * 10 + digitVal c := by
  unfold charsVal
  rw [List.foldl_append]
  rfl

theorem charsVal_decChars (n : Nat) : charsVal (decChars n) = n := by
  induction n using Nat.strong_induction_on with
  | _ n ih =>
    by_cases h : n < 10
    · rw [decChars]
      simp [h, charsVal, digitVal_digitChar n h]
    · rw [decChars]
      simp only [h, dif_neg, not_false_iff]
      rw [charsVal_append_digit, ih (n / 10) (by omega),
        digitVal_digitChar (n % 10) (by omega)]
      omega

theorem decChars_inj (a b : Nat) (h : decChars a = decChars b) : a = b := by
  have ha := charsVal_decChars a
  rw [h, charsVal_decChars b] at ha
  omega

theorem decChars_no_dash (n : Nat) : Char.ofNat 45 ∉ decChars n := by
  induction n using Nat.strong_induction_on with
  | _ n ih =>
    by_cases h : n < 10
    · rw [decChars]
      simp only [h, dif_pos, List.mem_singleton]
      exact fun hc => digitChar_ne_dash n h hc.symm
    · rw [decChars]
      simp only [h, dif_neg, not_false_iff, List.mem_append, List.mem_singleton]
      intro hmem
      rcases hmem with hm | hm
      · exact ih (n / 10) (by omega) hm
      · exact digitChar_ne_dash (n % 10) (by omega) hm.symm

theorem sep_split :
    ∀ (xs ys r₁ r₂ : List Char), Char.ofNat 45 ∉ xs → Char.ofNat 45 ∉ ys →
      xs ++ Char.ofNat 45 :: r₁ = ys ++ Char.ofNat 45 :: r₂ →
      xs = ys ∧ r₁ = r₂ := by
  intro xs
  induction xs with
  | nil =>
    intro ys r₁ r₂ _ hys heq
    cases ys with
    | nil => simpa using heq
    | cons c ys₂ =>
      simp only [List.nil_append, List.cons_append, List.cons.injEq] at heq
      exact absurd (heq.1 ▸ List.mem_cons_self c ys₂) hys
  | cons a xs₂ ih =>
    intro ys r₁ r₂ hxs hys heq
    cases ys with
    | nil =>
      simp only [List.nil_append, List.cons_append, List.cons.injEq] at heq
      exact absurd (heq.1 ▸ List.mem_cons_self a xs₂) hxs
    | cons c ys₂ =>
      simp only [List.cons_append, List.cons.injEq] at heq
      have htail := ih ys₂ r₁ r₂
        (fun hm => hxs (List.mem_cons_of_mem a hm))
        (fun hm => hys (List.mem_cons_of_mem c hm)) heq.2
      exact ⟨by rw [heq.1, htail.1], htail.2⟩

theorem numSeg_inj (pre r₁ r₂ : List Char) (n₁ n₂ : Nat)
    (h : pre ++ (decChars n₁ ++ Char.ofNat 45 :: r₁) =
      pre ++ (decChars n₂ ++ Char.ofNat 45 :: r₂)) : n₁ = n₂ := by
  have h2 := List.append_cancel_left h
  exact decChars_inj n₁ n₂
    (sep_split (decChars n₁) (decChars n₂) r₁ r₂
      (decChars_no_dash n₁) (decChars_no_dash n₂) h2).1

theorem mkBranchName_inj_agentNum (n₁ n₂ : Nat) (u₁ u₂ s₁ s₂ : String)
    (h : mkBranchName n₁ u₁ s₁ = mkBranchName n₂ u₂ s₂) : n₁ = n₂ := by
  have hd : (mkBranchName n₁ u₁ s₁).data = (mkBranchName n₂ u₂ s₂).data := by
    rw [h]
  simp only [mkBranchName, String.data_append, repr_data,
    List.append_assoc] at hd
  exact numSeg_inj ("ralphy/agent-").data
    (u₁.data ++ Char.ofNat 45 :: s₁.data)
    (u₂.data ++ Char.ofNat 45 :: s₂.data) n₁ n₂ (by simpa using hd)

theorem mkWorktreeDirName_inj_agentNum (n₁ n₂ : Nat) (u₁ u₂ : String)
    (h : mkWorktreeDirName n₁ u₁ = mkWorktreeDirName n₂ u₂) : n₁ = n₂ := by
  have hd : (mkWorktreeDirName n₁ u₁).data = (mkWorktreeDirName n₂ u₂).data := by
    rw [h]
  simp only [mkWorktreeDirName, String.data_append, repr_data,
    List.append_assoc] at hd
  exact numSeg_inj ("agent-").data u₁.data u₂.data n₁ n₂ (by simpa using hd)

theorem assignAgentNumbers_flatten_bounds (bs : List Nat) :
    ∀ (start : Nat) (n : Nat), n ∈ (assignAgentNumbers bs start).flatten →
      start < n ∧ n ≤ start + bs.sum := by
  induction bs with
  | nil => intro start n hn; simp [assignAgentNumbers] at hn
  | cons k rest ih =>
    intro start n hn
    simp only [assignAgentNumbers, List.flatten_cons, List.mem_append] at hn
    rcases hn with hn | hn
    · rcases List.mem_map.mp hn with ⟨i, hi, rfl⟩
      have hik := List.mem_range.mp hi
      simp only [List.sum_cons]
      omega
    · have := ih (start + k) n hn
      simp only [List.sum_cons]
      omega

theorem assignAgentNumbers_pairwise_lt (bs : List Nat) :
    ∀ start : Nat,
      List.Pairwise (fun a b => a < b) (assignAgentNumbers bs start).flatten := by
  induction bs with
  | nil => intro start; simp [assignAgentNumbers]
  | cons k rest ih =>
    intro start
    simp only [assignAgentNumbers, List.flatten_cons]
    rw [List.pairwise_append]
    refine ⟨?_, ih (start + k), ?_⟩
    · exact (List.pairwise_lt_range k).map _ (fun i j hij => by omega)
    · intro a ha b hb
      rcases List.mem_map.mp ha with ⟨i, hi, rfl⟩
      have hik := List.mem_range.mp hi
      have hbnd := assignAgentNumbers_flatten_bounds rest (start + k) b hb
      omega

/-- C8: the agent numbers handed out across the batches of one run are
strictly increasing (never reused), and therefore all generated branch
names, worktree directory names and sandbox directory names of the run are
pairwise distinct, whatever unique-id suffixes and task slugs the tasks
have. -/
theorem C8_generated_names_distinct (batchSizes : List Nat)
    (uid slug : Nat → String) :
    List.Pairwise (fun a b => a < b)
      (assignAgentNumbers batchSizes 0).flatten ∧
    ((assignAgentNumbers batchSizes 0).flatten.map
      (fun n => mkBranchName n (uid n) (slug n))).Nodup ∧
    ((assignAgentNumbers batchSizes 0).flatten.map
      (fun n => mkWorktreeDirName n (uid n))).Nodup ∧
    ((assignAgentNumbers batchSizes 0).flatten.map
      (fun n => mkSandboxDirName n (uid n))).Nodup := by
  have hpw := assignAgentNumbers_pairwise_lt batchSizes 0
  refine ⟨hpw, ?_, ?_, ?_⟩
  · exact hpw.map _ (fun a b hab heq =>
      Nat.ne_of_lt hab (mkBranchName_inj_agentNum a b _ _ _ _ heq))
  · exact hpw.map _ (fun a b hab heq =>
      Nat.ne_of_lt hab (mkWorktreeDirName_inj_agentNum a b _ _ heq))
  · exact hpw.map _ (fun a b hab heq =>
      Nat.ne_of_lt hab (mkWorktreeDirName_inj_agentNum a b _ _ heq))

theorem headIn_append_true (rel p dirs : List String)
    (h : headIn rel dirs = true) : headIn (rel ++ p) dirs = true := by
  cases rel with
  | nil => simp [headIn] at h
  | cons t rest => exact h

theorem scanCond_cons (original : FSNode) (dirs rel : List String)
    (name : String) (x : List String × Nat × Nat) :
    scanCond original dirs rel (name :: x.1, x.2) =
      scanCond original dirs (rel ++ [name]) x := by
  unfold scanCond
  rw [List.append_assoc]
  rfl

theorem scanSpec_pruned (original : FSNode) (dirs rel : List String)
    (h : headIn rel dirs = true) (ps : List (List String × Nat × Nat)) :
    scanSpec original dirs rel ps = [] := by
  unfold scanSpec
  have : ps.filter (scanCond original dirs rel) = [] := by
    rw [List.filter_eq_nil_iff]
    intro x _
    simp [scanCond, headIn_append_true rel x.1 dirs h]
  rw [this]
  rfl

theorem scanSpec_entries_cons (original : FSNode) (dirs rel : List String)
    (name : String) (child : FSNode) (rest : List (String × FSNode)) :
    scanSpec original dirs rel (filePathsEntries ((name, child) :: rest)) =
      scanSpec original dirs (rel ++ [name]) (filePaths child) ++
        scanSpec original dirs rel (filePathsEntries rest) := by
  unfold scanSpec
  rw [filePathsEntries, List.filter_append, List.map_append]
  congr 1
  rw [List.filter_map, List.map_map]
  have h1 : (scanCond original dirs rel ∘
      (fun x : List String × Nat × Nat => (name :: x.1, x.2))) =
      scanCond original dirs (rel ++ [name]) := by
    funext x
    exact scanCond_cons original dirs rel name x
  have h2 : ((fun x : List String × Nat × Nat => rel ++ x.1) ∘
      (fun x : List String × Nat × Nat => (name :: x.1, x.2))) =
      (fun x : List String × Nat × Nat => (rel ++ [name]) ++ x.1) := by
    funext x
    show rel ++ (name :: x.1) = (rel ++ [name]) ++ x.1
    rw [List.append_assoc]
    rfl
  rw [h1, h2]

mutual
theorem scanNode_eq (original : FSNode) (dirs : List String) :
    ∀ (rel : List String) (node : FSNode),
      scanNode original dirs rel node =
        scanSpec original dirs rel (filePaths node)
  | rel, FSNode.file m s => by
    rw [scanNode, filePaths]
    by_cases h1 : headIn rel dirs
    · rw [if_pos h1]
      exact (scanSpec_pruned original dirs rel h1 _).symm
    · rw [if_neg h1]
      by_cases h2 : fileDiffers m s (fsLookup original rel)
      · rw [if_pos h2]
        simp [scanSpec, scanCond, h1, h2]
      · rw [if_neg h2]
        simp [scanSpec, scanCond, h1, h2]
  | rel, FSNode.symlink t => by
    rw [scanNode, filePaths]
    rfl
  | rel, FSNode.dir entries => by
    rw [scanNode, filePaths]
    by_cases h1 : headIn rel dirs
    · rw [if_pos h1]
      exact (scanSpec_pruned original dirs rel h1 _).symm
    · rw [if_neg h1]
      exact scanEntries_eq original dirs rel entries

theorem scanEntries_eq (original : FSNode) (dirs : List String) :
    ∀ (rel : List String) (entries : List (String × FSNode)),
      scanEntries original dirs rel entries =
        scanSpec original dirs rel (filePathsEntries entries)
  | rel, [] => by
    rw [scanEntries, filePathsEntries]
    rfl
  | rel, (name, child) :: rest => by
    rw [scanEntries, scanSpec_entries_cons]
    rw [scanNode_eq original dirs (rel ++ [name]) child,
      scanEntries_eq original dirs rel rest]
end

/-- C3: `getModifiedFiles` returns exactly the regular files of the sandbox
tree (symlinks skipped, paths under a symlink-set top-level name skipped)
that are missing from the original tree or differ from it in modification
time or byte size; in the concrete scenario where file A changed content
and mtime, file B is untouched and file C is new, it returns exactly A and
C and not B. -/
theorem C3_getModifiedFiles_spec (entries : List (String × FSNode))
    (original : FSNode) (dirs : List String) :
    getModifiedFiles (FSNode.dir entries) original dirs =
      modifiedSpec (FSNode.dir entries) original dirs ∧
    getModifiedFiles
      (FSNode.dir [("A", FSNode.file 5 10), ("B", FSNode.file 2 20),
        ("C", FSNode.file 3 5)])
      (FSNode.dir [("A", FSNode.file 1 10), ("B", FSNode.file 2 20)])
      DEFAULT_SYMLINK_DIRS = [["A"], ["C"]] := by
  constructor
  · show scanEntries original dirs [] entries = _
    rw [scanEntries_eq]
    rfl
  · decide
